import Mathlib

/-!
# Verification of the `udpsender` reliable UDP file-transfer protocol

Shallow embedding of the protocol engine of `uunw/udpsender`
(`src/udpsender/__init__.py`, `src/udpsender/server.py`,
`src/udpsender/client.py`) and proofs about it.

Python byte strings are modelled as `List Nat` (each entry one byte),
Python strings as `List Nat` of Unicode code points, and Python outcomes
(`return value` / `return None` / uncaught exception) as the inductive
`PyResult`.  Wall-clock time is modelled as abstract `Nat` ticks.
-/

namespace Udpsender

/-! ## Byte-level helpers: `int.from_bytes` / `int.to_bytes`, big-endian -/

/-- `int.from_bytes(bs, "big")`: big-endian interpretation of a byte string.
The empty string decodes to `0`, exactly as in Python. -/
def fromBytesBE (bs : List Nat) : Nat :=
  bs.foldl (fun acc b => acc * 256 + b) 0

/-- `value.to_bytes(len, "big")` for an in-range value: `len` big-endian
bytes.  (Python raises `OverflowError` out of range; the guard lives in
`pyToBytes`.) -/
def toBytesBE : Nat → Nat → List Nat
  | 0, _ => []
  | k + 1, n => toBytesBE k (n / 256) ++ [n % 256]

/-- `value.to_bytes(len, "big")` with Python's `OverflowError` guard:
`none` models the raised exception. -/
def pyToBytes (value len : Nat) : Option (List Nat) :=
  if value < 256 ^ len then some (toBytesBE len value) else none

theorem toBytesBE_length (k n : Nat) : (toBytesBE k n).length = k := by
  induction k generalizing n with
  | zero => rfl
  | succ k ih => simp [toBytesBE, ih]

theorem fromBytesBE_append_one (bs : List Nat) (b : Nat) :
    fromBytesBE (bs ++ [b]) = fromBytesBE bs * 256 + b := by
  simp [fromBytesBE]

theorem fromBytesBE_toBytesBE (k n : Nat) :
    fromBytesBE (toBytesBE k n) = n % 256 ^ k := by
  induction k generalizing n with
  | zero => simp [toBytesBE, fromBytesBE, Nat.mod_one]
  | succ k ih =>
      rw [toBytesBE, fromBytesBE_append_one, ih]
      have h1 : n % 256 ^ (k + 1) = n % 256 + 256 * (n / 256 % 256 ^ k) := by
        rw [pow_succ', Nat.mod_mul]
      omega

theorem fromBytesBE_toBytesBE_of_lt {k n : Nat} (h : n < 256 ^ k) :
    fromBytesBE (toBytesBE k n) = n := by
  rw [fromBytesBE_toBytesBE, Nat.mod_eq_of_lt h]

/-! ## Unicode / UTF-8: Python `str.encode` and `bytes.decode` -/

/-- A Unicode scalar value: a code point that Python's UTF-8 codec can
encode (below 0x110000 and not a surrogate). -/
def isScalar (c : Nat) : Bool :=
  c < 0x110000 && !(0xD800 ≤ c && c ≤ 0xDFFF)

/-- UTF-8 encoding of one Unicode scalar value. -/
def encodeChar (c : Nat) : List Nat :=
  if c < 0x80 then [c]
  else if c < 0x800 then [0xC0 + c / 64, 0x80 + c % 64]
  else if c < 0x10000 then
    [0xE0 + c / 4096, 0x80 + c / 64 % 64, 0x80 + c % 64]
  else
    [0xF0 + c / 262144, 0x80 + c / 4096 % 64, 0x80 + c / 64 % 64, 0x80 + c % 64]

/-- `str.encode()`: UTF-8 bytes of a string, or `none` for the
`UnicodeEncodeError` Python raises on a lone surrogate. -/
def strEncode (s : List Nat) : Option (List Nat) :=
  if s.all isScalar then some ((s.map encodeChar).flatten) else none

/-- Is `b` a UTF-8 continuation byte? -/
def isCont (b : Nat) : Bool := 0x80 ≤ b && b < 0xC0

/-- One step of strict UTF-8 decoding (rejecting overlong forms,
surrogates and out-of-range code points, as CPython does): the first
decoded code point and the remaining bytes, or `none` on malformed
input. -/
def decodeOne : List Nat → Option (Nat × List Nat)
  | [] => none
  | b :: rest =>
    if b < 0x80 then some (b, rest)
    else if b < 0xC2 then none
    else if b < 0xE0 then
      match rest with
      | b1 :: rest1 =>
        if isCont b1 then some ((b - 0xC0) * 64 + (b1 - 0x80), rest1)
        else none
      | [] => none
    else if b < 0xF0 then
      match rest with
      | b1 :: b2 :: rest2 =>
        let c := (b - 0xE0) * 4096 + (b1 - 0x80) * 64 + (b2 - 0x80)
        if isCont b1 && isCont b2 && decide (0x800 ≤ c) &&
            !(0xD800 ≤ c && c ≤ 0xDFFF) then some (c, rest2)
        else none
      | _ => none
    else if b < 0xF5 then
      match rest with
      | b1 :: b2 :: b3 :: rest3 =>
        let c := (b - 0xF0) * 262144 + (b1 - 0x80) * 4096 +
          (b2 - 0x80) * 64 + (b3 - 0x80)
        if isCont b1 && isCont b2 && isCont b3 &&
            decide (0x10000 ≤ c) && decide (c < 0x110000) then some (c, rest3)
        else none
      | _ => none
    else none

/-- Fuel-indexed strict UTF-8 decoding.  Every step consumes at least
one byte, so the byte count is always enough fuel. -/
def strDecodeFuel : Nat → List Nat → Option (List Nat)
  | _, [] => some []
  | 0, _ :: _ => none
  | fuel + 1, b :: rest =>
    match decodeOne (b :: rest) with
    | none => none
    | some (c, rest') => (strDecodeFuel fuel rest').map (c :: ·)

/-- `bytes.decode()`: strict UTF-8 decoding; `none` models the raised
`UnicodeDecodeError`. -/
def strDecode (bs : List Nat) : Option (List Nat) :=
  strDecodeFuel bs.length bs

/-- `os.path.basename` (POSIX): the suffix after the last `'/'`
(code point 47) — `p[p.rfind(sep)+1:]`. -/
def basename (s : List Nat) : List Nat :=
  ((s.reverse.takeWhile (fun c => c ≠ 47)).reverse)

/-! ## CRC-32 (`zlib.crc32`) -/

/-- One bit-round of the reflected CRC-32 algorithm
(polynomial 0xEDB88320). -/
def crcRound (c : Nat) : Nat :=
  if c % 2 = 1 then (c / 2) ^^^ 0xEDB88320 else c / 2

/-- Fold one input byte into the running CRC register. -/
def crcByte (c b : Nat) : Nat :=
  Nat.iterate crcRound 8 (c ^^^ b)

/-- `zlib.crc32(data)`: initial register 0xFFFFFFFF, final complement. -/
def crc32 (bs : List Nat) : Nat :=
  (bs.foldl crcByte 0xFFFFFFFF) ^^^ 0xFFFFFFFF

/-! ## Python outcomes -/

/-- Outcome of a Python call: a returned value, a returned `None`, or an
exception propagating past the caller. -/
inductive PyResult (α : Type) where
  | ok (val : α)
  | retNone
  | raised
  deriving Repr, DecidableEq

/-! ## Protocol constants (`src/udpsender/__init__.py`) -/

inductive SEGMENT_TYPE where
  | INIT
  | DATA
  | ACK
  deriving Repr, DecidableEq

namespace SEGMENT_TYPE

/-- The wire value of a segment type (`SEGMENT_TYPE(...).value`). -/
def value : SEGMENT_TYPE → Nat
  | .INIT => 1
  | .DATA => 2
  | .ACK => 3

/-- `SEGMENT_TYPE(n)`: Python's enum lookup; `none` models the
`ValueError` raised for a value that is not 1, 2 or 3. -/
def ofInt (n : Nat) : Option SEGMENT_TYPE :=
  if n = 1 then some .INIT
  else if n = 2 then some .DATA
  else if n = 3 then some .ACK
  else none

end SEGMENT_TYPE

def HEADER_TYPE_LENGTH : Nat := 1
def HEADER_SEQUENCE_LENGTH : Nat := 4
def HEADER_CHECKSUM_LENGTH : Nat := 4
def HEADER_FILESIZE_LENGTH : Nat := 4

def MAX_SEGMENT_SIZE : Nat := 1024
def HEADER_SIZE : Nat :=
  HEADER_TYPE_LENGTH + HEADER_SEQUENCE_LENGTH + HEADER_CHECKSUM_LENGTH
def MAX_PAYLOAD_SIZE : Nat := MAX_SEGMENT_SIZE - HEADER_SIZE

/-- `LOSS_TIMEOUT` (3.0 s), in abstract clock ticks. -/
def LOSS_TIMEOUT : Nat := 3
def CONNECTION_END_NULLS_COUNT : Nat := 10
def MAX_ACK_PER_BATCH : Nat := 200

/-- `int.from_bytes(b"ffff", "big")` — four ASCII `f` bytes. -/
def INIT_SEQUENCE_NUMBER : Nat := fromBytesBE [102, 102, 102, 102]

/-! ## Segment codec (`Utils`) -/

namespace Utils

/-- `Utils.encode_init`: type byte, 4-byte big-endian filesize, UTF-8
filename.  `none` models the exceptions Python raises for a filesize
of 2^32 or more (`OverflowError`) or an unencodable filename. -/
def encode_init (filesize : Nat) (filename : List Nat) :
    Option (List Nat) := do
  let fs ← pyToBytes filesize HEADER_FILESIZE_LENGTH
  let fn ← strEncode filename
  pure ([SEGMENT_TYPE.INIT.value] ++ fs ++ fn)

/-- `Utils.encode_data_headers`: type byte, 4-byte sequence number,
4-byte checksum.  `none` models `OverflowError` on out-of-range fields. -/
def encode_data_headers (sequence_number crc32sum : Nat) :
    Option (List Nat) := do
  let seq ← pyToBytes sequence_number HEADER_SEQUENCE_LENGTH
  let crc ← pyToBytes crc32sum HEADER_CHECKSUM_LENGTH
  pure ([SEGMENT_TYPE.DATA.value] ++ seq ++ crc)

/-- `Utils.encode_ack`: type byte and 4-byte sequence number. -/
def encode_ack (sequence_number : Nat) : Option (List Nat) := do
  let seq ← pyToBytes sequence_number HEADER_SEQUENCE_LENGTH
  pure ([SEGMENT_TYPE.ACK.value] ++ seq)

/-- `Utils.decode_init`.  Python's `SEGMENT_TYPE(...)` raises on an
unknown type byte (`.raised`); a non-Init type returns `None`
(`.retNone`); otherwise the filesize bytes `segment[1:5]` and the
basename of the decoded filename bytes `segment[5:]` are returned. -/
def decode_init (segment : List Nat) : PyResult (Nat × List Nat) :=
  match SEGMENT_TYPE.ofInt (fromBytesBE (segment.take HEADER_TYPE_LENGTH)) with
  | none => .raised
  | some segment_type =>
    if segment_type ≠ SEGMENT_TYPE.INIT then .retNone
    else
      let filesize := fromBytesBE
        ((segment.drop HEADER_TYPE_LENGTH).take HEADER_FILESIZE_LENGTH)
      match strDecode (segment.drop (HEADER_TYPE_LENGTH + HEADER_FILESIZE_LENGTH)) with
      | none => .raised
      | some name => .ok (filesize, basename name)

/-- `Utils.decode_data_headers`: type, sequence number `headers[1:5]`,
checksum `headers[5:9]`.  Never returns `None`; raises on an unknown
type byte. -/
def decode_data_headers (headers : List Nat) :
    PyResult (SEGMENT_TYPE × Nat × Nat) :=
  match SEGMENT_TYPE.ofInt (fromBytesBE (headers.take HEADER_TYPE_LENGTH)) with
  | none => .raised
  | some segment_type =>
    .ok (segment_type,
      fromBytesBE ((headers.drop HEADER_TYPE_LENGTH).take HEADER_SEQUENCE_LENGTH),
      fromBytesBE ((headers.drop (HEADER_TYPE_LENGTH + HEADER_SEQUENCE_LENGTH)).take
        HEADER_CHECKSUM_LENGTH))

/-- `Utils.decode_ack`: `None` for a non-Ack type, the sequence number
`segment[1:5]` otherwise; raises on an unknown type byte. -/
def decode_ack (segment : List Nat) : PyResult Nat :=
  match SEGMENT_TYPE.ofInt (fromBytesBE (segment.take HEADER_TYPE_LENGTH)) with
  | none => .raised
  | some segment_type =>
    if segment_type ≠ SEGMENT_TYPE.ACK then .retNone
    else .ok (fromBytesBE
      ((segment.drop HEADER_TYPE_LENGTH).take HEADER_SEQUENCE_LENGTH))

end Utils

/-! ## Ordered-dictionary operations (`OrderedDict[int, bytes]`) -/

/-- Key membership lookup (`k in d` / `d[k]`): first (unique) match. -/
def dictLookup (k : Nat) : List (Nat × List Nat) → Option (List Nat)
  | [] => none
  | (k', v) :: rest => if k' = k then some v else dictLookup k rest

/-- `d[k] = v`: replace in place when the key exists, append otherwise. -/
def dictInsert (k : Nat) (v : List Nat) :
    List (Nat × List Nat) → List (Nat × List Nat)
  | [] => [(k, v)]
  | (k', v') :: rest =>
    if k' = k then (k', v) :: rest else (k', v') :: dictInsert k v rest

/-- `d.pop(k)`, removal part: drop the entry with key `k`. -/
def dictErase (k : Nat) : List (Nat × List Nat) → List (Nat × List Nat)
  | [] => []
  | (k', v') :: rest => if k' = k then rest else (k', v') :: dictErase k rest

theorem dictErase_length_lt {k : Nat} {d : List (Nat × List Nat)}
    {v : List Nat} (h : dictLookup k d = some v) :
    (dictErase k d).length < d.length := by
  induction d with
  | nil => simp [dictLookup] at h
  | cons hd tl ih =>
      obtain ⟨k', v'⟩ := hd
      by_cases hk : k' = k
      · simp [dictErase, hk]
      · rw [dictLookup, if_neg hk] at h
        simpa [dictErase, hk] using Nat.succ_lt_succ (ih h)

/-! ## Receiver (`Server`, `src/udpsender/server.py`)

The socket, the logger, the wall clock and the `__recieving` pause flag
(single-threaded, always restored) are external to the protocol state;
the state below is exactly the mutable protocol data of `Server` and the
locals of `listen`. -/

/-- The mutable per-transfer fields of `Server`:
`__segments` (reassembly buffer), `__pending_ack`, `__acked`. -/
structure ServerState where
  segments : List (Nat × List Nat)
  pending_ack : List Nat
  acked : List Nat
  deriving Repr, DecidableEq

/-- `Server.__process_segment`.  Returns the Python `bool` and the
updated state; `.raised` models the `ValueError` that
`Utils.decode_data_headers` raises on an unknown type byte (there is no
handler in `listen`). -/
def process_segment (st : ServerState) (segment : List Nat) :
    PyResult (Bool × ServerState) :=
  match Utils.decode_data_headers segment with
  | .raised => .raised
  | .retNone => .raised
  | .ok (_, sequence_number, claimed_crc32sum) =>
    let payload := segment.drop HEADER_SIZE
    if sequence_number ∈ st.acked then
      .ok (true, { st with acked := st.acked.erase sequence_number,
                           pending_ack := st.pending_ack ++ [sequence_number] })
    else if crc32 payload ≠ claimed_crc32sum then
      .ok (false, st)
    else
      .ok (true, { st with
        segments := dictInsert sequence_number payload st.segments,
        pending_ack := st.pending_ack ++ [sequence_number] })

/-- Result of one `Server.__send_acks` call. -/
structure FlushOutcome where
  state : ServerState
  /-- Sequence numbers of the Ack datagrams emitted, in order. -/
  sent : List Nat
  /-- Whether an exception was caught mid-flush. -/
  failed : Bool
  deriving Repr, DecidableEq

/-- The `for sequence_number in self.__pending_ack` send loop of
`__send_acks`.  `oracle i` tells whether the `i`-th `sendto` call
succeeds; a failed send — or an `OverflowError` from `encode_ack` —
raises, landing in the `except` handler.  Returns the emitted sequence
numbers and whether the loop was aborted by an exception. -/
def sendLoop (oracle : Nat → Bool) (sent : List Nat) :
    List Nat → List Nat × Bool
  | [] => (sent, false)
  | seq :: rest =>
    if (Utils.encode_ack seq).isSome then
      if oracle sent.length then
        let sent' := sent ++ [seq]
        if MAX_ACK_PER_BATCH ≤ sent'.length then (sent', false)
        else sendLoop oracle sent' rest
      else (sent, true)
    else (sent, true)

/-- `Server.__send_acks`.  Every emitted sequence number is appended to
`__acked`; the removal pass over `processed_acks` sits *inside* the
`try`, so it runs only when no send failed.  All exceptions are caught
(`except Exception`), so the call never raises. -/
def send_acks (oracle : Nat → Bool) (st : ServerState) : FlushOutcome :=
  let r := sendLoop oracle [] st.pending_ack
  { state :=
      { st with
        acked := st.acked ++ r.1,
        pending_ack :=
          if r.2 then st.pending_ack
          else r.1.foldl (fun p a => p.erase a) st.pending_ack },
    sent := r.1,
    failed := r.2 }

/-- The locals of `Server.listen` during the RECEIVING loop, plus the
output file contents.  The scheduled-ack clock `__send_ack_at` is
time-valued and not part of the step relation. -/
structure ListenState where
  server : ServerState
  nulls : Nat
  possible_nulls : List (List Nat)
  next_segment : Nat
  file : List Nat
  deriving Repr, DecidableEq

/-- Outcome of one iteration of the RECEIVING loop body. -/
inductive StepOutcome where
  | continued (s : ListenState)
  | closed (s : ListenState)
  | raised
  deriving Repr, DecidableEq

/-- Fuel-indexed unrolling of the reassembly drain of `listen`:
`while next_segment in self.__segments.keys()` pop the entry, extend the
file, advance `next_segment`.  Every iteration removes one dictionary
entry, so `segments.length` fuel is always enough; see
`drainLoop_while_eq` for the exact while-loop equation. -/
def drainLoopFuel : Nat → List (Nat × List Nat) → Nat → List Nat →
    List (Nat × List Nat) × Nat × List Nat
  | 0, segments, next_segment, file => (segments, next_segment, file)
  | fuel + 1, segments, next_segment, file =>
    match dictLookup next_segment segments with
    | none => (segments, next_segment, file)
    | some payload =>
        drainLoopFuel fuel (dictErase next_segment segments)
          (next_segment + payload.length) (file ++ payload)

/-- The reassembly drain of `listen`. -/
def drainLoop (segments : List (Nat × List Nat)) (next_segment : Nat)
    (file : List Nat) : List (Nat × List Nat) × Nat × List Nat :=
  drainLoopFuel segments.length segments next_segment file

theorem drainLoopFuel_eq_of_le :
    ∀ {fuel fuel' : Nat} {segments : List (Nat × List Nat)}
      {next_segment : Nat} {file : List Nat},
      segments.length ≤ fuel → segments.length ≤ fuel' →
      drainLoopFuel fuel segments next_segment file =
        drainLoopFuel fuel' segments next_segment file := by
  intro fuel
  induction fuel with
  | zero =>
      intro fuel' segments next_segment file h h'
      have hs : segments = [] := List.length_eq_zero.mp (Nat.le_zero.mp h)
      subst hs
      cases fuel' with
      | zero => rfl
      | succ n => simp [drainLoopFuel, dictLookup]
  | succ n ih =>
      intro fuel' segments next_segment file h h'
      cases fuel' with
      | zero =>
          have hs : segments = [] := List.length_eq_zero.mp (Nat.le_zero.mp h')
          subst hs
          simp [drainLoopFuel, dictLookup]
      | succ m =>
          rw [drainLoopFuel, drainLoopFuel]
          cases hl : dictLookup next_segment segments with
          | none => rfl
          | some payload =>
              have hlt := dictErase_length_lt (k := next_segment) hl
              exact ih (by omega) (by omega)

/-- `drainLoop` satisfies the exact equation of the Python while loop. -/
theorem drainLoop_while_eq (segments : List (Nat × List Nat))
    (next_segment : Nat) (file : List Nat) :
    drainLoop segments next_segment file =
      match dictLookup next_segment segments with
      | none => (segments, next_segment, file)
      | some payload =>
          drainLoop (dictErase next_segment segments)
            (next_segment + payload.length) (file ++ payload) := by
  unfold drainLoop
  cases hs : segments with
  | nil => simp [drainLoopFuel, dictLookup]
  | cons hd tl =>
      rw [List.length_cons, drainLoopFuel]
      cases hl : dictLookup next_segment (hd :: tl) with
      | none => rfl
      | some payload =>
          have hlt := dictErase_length_lt (k := next_segment) hl
          exact drainLoopFuel_eq_of_le (by simp at hlt ⊢; omega) (le_refl _)

/-- `for segment in possible_nulls: self.__process_segment(segment)` —
the reprocessing pass run when the null counter resets. -/
def reprocessNulls (st : ServerState) : List (List Nat) → PyResult ServerState
  | [] => .ok st
  | seg :: rest =>
    match process_segment st seg with
    | .raised => .raised
    | .retNone => .raised
    | .ok (_, st') => reprocessNulls st' rest

/-- Drain then continue — the tail of a successful ingestion. -/
def listenDrain (s : ListenState) : StepOutcome :=
  let r := drainLoop s.server.segments s.next_segment s.file
  .continued { s with server := { s.server with segments := r.1 },
                      next_segment := r.2.1, file := r.2.2 }

/-- The part of the RECEIVING loop body after the zero-length check. -/
def listenProcess (filesize : Nat) (s : ListenState) (segment : List Nat) :
    StepOutcome :=
  if s.next_segment ≥ filesize then .continued s
  else
    match process_segment s.server segment with
    | .raised => .raised
    | .retNone => .raised
    | .ok (false, sv) => .continued { s with server := sv }
    | .ok (true, sv) =>
      let s1 := { s with server := sv }
      if s1.nulls ≠ 0 then
        match reprocessNulls s1.server s1.possible_nulls with
        | .raised => .raised
        | .retNone => .raised
        | .ok sv2 =>
            listenDrain { s1 with server := sv2, nulls := 0, possible_nulls := [] }
      else listenDrain s1

/-- One iteration of the RECEIVING loop body of `Server.listen` for an
inbound datagram `segment`.  Note that the zero-length branch has no
`continue`: after buffering the null the body falls through to
`__process_segment(segment)`. -/
def listenStep (filesize : Nat) (s : ListenState) (segment : List Nat) :
    StepOutcome :=
  if segment = [] then
    if s.nulls ≤ CONNECTION_END_NULLS_COUNT then
      listenProcess filesize
        { s with nulls := s.nulls + 1,
                 possible_nulls := s.possible_nulls ++ [segment] } segment
    else .closed s
  else listenProcess filesize s segment

/-! ## Sender (`Client`, `src/udpsender/client.py`) -/

/-- `InflightSegment`: sequence number and resend deadline (ticks). -/
structure InflightSegment where
  segment_number : Nat
  resend_epoch : Nat
  deriving Repr, DecidableEq

/-- `file.seek(offset); file.read(MAX_PAYLOAD_SIZE)`. -/
def fileRead (file : List Nat) (offset : Nat) : List Nat :=
  (file.drop offset).take MAX_PAYLOAD_SIZE

/-- The Data datagram built by `Client.__send_segment`:
`encode_data_headers(segment_number, crc32(payload)) + payload`.
`none` models the `OverflowError` for an out-of-range header field. -/
def dataSegment (segment_number : Nat) (payload : List Nat) :
    Option (List Nat) :=
  (Utils.encode_data_headers segment_number (crc32 payload)).map (· ++ payload)

/-- Fuel-indexed unrolling of the first ("streaming") pass of
`send_file`: read the file strictly forward in chunks of at most
`MAX_PAYLOAD_SIZE` bytes and transmit each as a Data segment whose
sequence number is its starting byte offset (`while payload :=
file.read(MAX_PAYLOAD_SIZE)`).  Each iteration reads at least one byte,
so `file.length - offset` fuel is always enough. -/
def streamPassFuel : Nat → List Nat → Nat → List (Nat × List Nat)
  | 0, _, _ => []
  | fuel + 1, file, offset =>
    if file.length ≤ offset then []
    else
      (offset, fileRead file offset) ::
        streamPassFuel fuel file (offset + (fileRead file offset).length)

/-- The whole streaming pass, starting at offset 0. -/
def streamPass (file : List Nat) : List (Nat × List Nat) :=
  streamPassFuel file.length file 0

/-- Result of one draining-loop iteration: the in-flight list and the
`(sequence number, payload)` of each Data datagram transmitted. -/
structure DrainStepResult where
  inflight : List InflightSegment
  sent : List (Nat × List Nat)
  deriving Repr, DecidableEq

/-- The poll/ack tail of one draining iteration: an inbound datagram (if
any) is ignored when empty or when `decode_ack` returns `None`; a valid
Ack removes every in-flight entry with that sequence number.
`decode_ack` raising on an unknown type byte is uncaught. -/
def drainRecv (inflight1 : List InflightSegment)
    (sentList : List (Nat × List Nat)) (inbound : Option (List Nat)) :
    PyResult DrainStepResult :=
  match inbound with
  | none => .ok ⟨inflight1, sentList⟩
  | some seg =>
    if seg = [] then .ok ⟨inflight1, sentList⟩
    else match Utils.decode_ack seg with
      | .raised => .raised
      | .retNone => .ok ⟨inflight1, sentList⟩
      | .ok sequence_number =>
        .ok ⟨inflight1.filter (fun e => e.segment_number ≠ sequence_number),
          sentList⟩

/-- One iteration of the `while self.__segment_inflight:` draining loop
of `Client.send_file` at clock `now`, with `inbound` the datagram the
poll delivered (`none` on poll timeout).  Python reads the clock twice
(deadline comparison, fresh deadline); both reads are modelled as `now`.
`__send_segment` appends the fresh in-flight entry at the end of the
list before sending. -/
def drainStep (file : List Nat) (now : Nat) (inflight : List InflightSegment)
    (inbound : Option (List Nat)) : PyResult DrainStepResult :=
  match inflight with
  | [] => .ok ⟨[], []⟩
  | first :: rest =>
    if first.resend_epoch < now then
      let payload := fileRead file first.segment_number
      match Utils.encode_data_headers first.segment_number (crc32 payload) with
      | none => .raised
      | some _ =>
        drainRecv (rest ++ [⟨first.segment_number, now + LOSS_TIMEOUT⟩])
          [(first.segment_number, payload)] inbound
    else drainRecv inflight [] inbound

/-- The whole draining loop over a finite schedule of
`(clock, inbound datagram)` events: the loop body runs only while the
in-flight list is non-empty and stops the moment it empties. -/
def drainRun (file : List Nat) :
    List (Nat × Option (List Nat)) → List InflightSegment →
    PyResult (List InflightSegment × List (Nat × List Nat))
  | _, [] => .ok ([], [])
  | [], inflight => .ok (inflight, [])
  | (now, inbound) :: rest, inflight =>
    match drainStep file now inflight inbound with
    | .raised => .raised
    | .retNone => .raised
    | .ok r =>
      match drainRun file rest r.inflight with
      | .raised => .raised
      | .retNone => .raised
      | .ok (fin, sentRest) => .ok (fin, r.sent ++ sentRest)

/-! ## Helper lemmas -/

theorem decodeOne_encodeChar (c : Nat) (h : isScalar c = true) (bs : List Nat) :
    decodeOne (encodeChar c ++ bs) = some (c, bs) := by
  have h' : c < 0x110000 ∧ (c < 0xD800 ∨ 0xDFFF < c) := by
    simpa [isScalar, Decidable.not_and_iff_or_not, Nat.not_le] using h
  by_cases h1 : c < 0x80
  · have henc : encodeChar c = [c] := by simp [encodeChar, h1]
    rw [henc, List.singleton_append]
    unfold decodeOne
    simp only []
    rw [if_pos h1]
  · by_cases h2 : c < 0x800
    · have henc : encodeChar c = [0xC0 + c / 64, 0x80 + c % 64] := by
        simp [encodeChar, h1, h2]
      have e1 : ¬(0xC0 + c / 64 < 0x80) := by omega
      have e2 : ¬(0xC0 + c / 64 < 0xC2) := by omega
      have e3 : 0xC0 + c / 64 < 0xE0 := by omega
      have e4 : isCont (0x80 + c % 64) = true := by
        simp only [isCont, Bool.and_eq_true, decide_eq_true_eq]
        omega
      have e5 : (0xC0 + c / 64 - 0xC0) * 64 + (0x80 + c % 64 - 0x80) = c := by
        omega
      rw [henc]
      simp only [List.cons_append, List.nil_append]
      unfold decodeOne
      simp only []
      rw [if_neg e1, if_neg e2, if_pos e3]
      simp [e4, e5]
      omega
    · by_cases h3 : c < 0x10000
      · have henc : encodeChar c =
            [0xE0 + c / 4096, 0x80 + c / 64 % 64, 0x80 + c % 64] := by
          simp [encodeChar, h1, h2, h3]
        have e1 : ¬(0xE0 + c / 4096 < 0x80) := by omega
        have e2 : ¬(0xE0 + c / 4096 < 0xC2) := by omega
        have e3 : ¬(0xE0 + c / 4096 < 0xE0) := by omega
        have e4 : 0xE0 + c / 4096 < 0xF0 := by omega
        have e9 : (0xE0 + c / 4096 - 0xE0) * 4096 +
            (0x80 + c / 64 % 64 - 0x80) * 64 + (0x80 + c % 64 - 0x80) = c := by
          omega
        rw [henc]
        simp only [List.cons_append, List.nil_append]
        unfold decodeOne
        simp only []
        rw [if_neg e1, if_neg e2, if_neg e3, if_pos e4]
        simp only [e9]
        simp [isCont]
        omega
      · have henc : encodeChar c = [0xF0 + c / 262144, 0x80 + c / 4096 % 64,
            0x80 + c / 64 % 64, 0x80 + c % 64] := by
          simp [encodeChar, h1, h2, h3]
        have e1 : ¬(0xF0 + c / 262144 < 0x80) := by omega
        have e2 : ¬(0xF0 + c / 262144 < 0xC2) := by omega
        have e3 : ¬(0xF0 + c / 262144 < 0xE0) := by omega
        have e4 : ¬(0xF0 + c / 262144 < 0xF0) := by omega
        have e5 : 0xF0 + c / 262144 < 0xF5 := by omega
        have e9 : (0xF0 + c / 262144 - 0xF0) * 262144 +
            (0x80 + c / 4096 % 64 - 0x80) * 4096 +
            (0x80 + c / 64 % 64 - 0x80) * 64 + (0x80 + c % 64 - 0x80) = c := by
          omega
        rw [henc]
        simp only [List.cons_append, List.nil_append]
        unfold decodeOne
        simp only []
        rw [if_neg e1, if_neg e2, if_neg e3, if_neg e4, if_pos e5]
        simp only [e9]
        simp [isCont]
        omega

theorem encodeChar_length_pos (c : Nat) : 1 ≤ (encodeChar c).length := by
  unfold encodeChar
  split
  · simp
  · split
    · simp
    · split
      · simp
      · simp

theorem strDecodeFuel_strEncode :
    ∀ (s : List Nat) (fuel : Nat), (∀ c ∈ s, isScalar c) →
      ((s.map encodeChar).flatten).length ≤ fuel →
      strDecodeFuel fuel ((s.map encodeChar).flatten) = some s := by
  intro s
  induction s with
  | nil => intro fuel _ _; cases fuel <;> rfl
  | cons c cs ih =>
      intro fuel hsc hlen
      rw [List.map_cons, List.flatten_cons] at hlen ⊢
      have hc : isScalar c = true := hsc c (by simp)
      have hpos := encodeChar_length_pos c
      rw [List.length_append] at hlen
      obtain ⟨e, etl, henc⟩ : ∃ e etl, encodeChar c = e :: etl := by
        cases hh : encodeChar c with
        | nil => rw [hh] at hpos; simp at hpos
        | cons e etl => exact ⟨e, etl, rfl⟩
      cases fuel with
      | zero => omega
      | succ f =>
          rw [henc, List.cons_append, strDecodeFuel, ← List.cons_append, ← henc,
            decodeOne_encodeChar c hc]
          simp only []
          rw [ih f (fun x hx => hsc x (List.mem_cons_of_mem c hx)) (by omega)]
          rfl

theorem strDecode_strEncode (s : List Nat) (h : ∀ c ∈ s, isScalar c) :
    strDecode ((s.map encodeChar).flatten) = some s :=
  strDecodeFuel_strEncode s _ h (le_refl _)

/-! ## Shape lemmas for the wire format -/

theorem fromBytesBE_singleton (a : Nat) : fromBytesBE [a] = a := by
  simp [fromBytesBE]

/-- Decoding the Data header fields out of a framed byte string. -/
theorem decode_data_headers_shape (b : Nat) (sB cB payload : List Nat)
    (hs : sB.length = 4) (hc : cB.length = 4) :
    Utils.decode_data_headers (b :: (sB ++ (cB ++ payload))) =
      match SEGMENT_TYPE.ofInt b with
      | none => .raised
      | some t => .ok (t, fromBytesBE sB, fromBytesBE cB) := by
  unfold Utils.decode_data_headers
  have h1 : (b :: (sB ++ (cB ++ payload))).take HEADER_TYPE_LENGTH = [b] := rfl
  have h2 : (b :: (sB ++ (cB ++ payload))).drop HEADER_TYPE_LENGTH =
      sB ++ (cB ++ payload) := rfl
  have h3 : (b :: (sB ++ (cB ++ payload))).drop
      (HEADER_TYPE_LENGTH + HEADER_SEQUENCE_LENGTH) = cB ++ payload := by
    show (sB ++ (cB ++ payload)).drop 4 = cB ++ payload
    exact List.drop_left' hs
  rw [h1, h2, h3, fromBytesBE_singleton]
  rw [show HEADER_SEQUENCE_LENGTH = 4 from rfl, List.take_left' hs,
    show HEADER_CHECKSUM_LENGTH = 4 from rfl, List.take_left' hc]

/-- Decoding an Ack out of a framed byte string. -/
theorem decode_ack_shape (b : Nat) (sB tail : List Nat) (hs : sB.length = 4) :
    Utils.decode_ack (b :: (sB ++ tail)) =
      match SEGMENT_TYPE.ofInt b with
      | none => .raised
      | some t =>
        if t ≠ SEGMENT_TYPE.ACK then .retNone else .ok (fromBytesBE sB) := by
  unfold Utils.decode_ack
  have h1 : (b :: (sB ++ tail)).take HEADER_TYPE_LENGTH = [b] := rfl
  have h2 : (b :: (sB ++ tail)).drop HEADER_TYPE_LENGTH = sB ++ tail := rfl
  rw [h1, h2, fromBytesBE_singleton,
    show HEADER_SEQUENCE_LENGTH = 4 from rfl, List.take_left' hs]

/-- Decoding an Init out of a framed byte string. -/
theorem decode_init_shape (b : Nat) (fsB fnB : List Nat)
    (hs : fsB.length = 4) :
    Utils.decode_init (b :: (fsB ++ fnB)) =
      match SEGMENT_TYPE.ofInt b with
      | none => .raised
      | some t =>
        if t ≠ SEGMENT_TYPE.INIT then .retNone
        else
          match strDecode fnB with
          | none => .raised
          | some name => .ok (fromBytesBE fsB, basename name) := by
  unfold Utils.decode_init
  have h1 : (b :: (fsB ++ fnB)).take HEADER_TYPE_LENGTH = [b] := rfl
  have h2 : (b :: (fsB ++ fnB)).drop HEADER_TYPE_LENGTH = fsB ++ fnB := rfl
  have h3 : (b :: (fsB ++ fnB)).drop
      (HEADER_TYPE_LENGTH + HEADER_FILESIZE_LENGTH) = fnB := by
    show (fsB ++ fnB).drop 4 = fnB
    exact List.drop_left' hs
  rw [h1, h2, h3, fromBytesBE_singleton,
    show HEADER_FILESIZE_LENGTH = 4 from rfl, List.take_left' hs]

theorem encode_init_eq (filesize : Nat) (filename : List Nat)
    (hfs : filesize < 2 ^ 32) (hfn : ∀ c ∈ filename, isScalar c) :
    Utils.encode_init filesize filename =
      some (1 :: (toBytesBE 4 filesize ++ (filename.map encodeChar).flatten)) := by
  have hall : filename.all isScalar = true := by
    rw [List.all_eq_true]; exact hfn
  have hfs' : filesize < 4294967296 := by norm_num at hfs; omega
  simp [Utils.encode_init, pyToBytes, HEADER_FILESIZE_LENGTH, hfs',
    strEncode, hall, SEGMENT_TYPE.value]

theorem encode_data_headers_eq (seqn crc : Nat) (hseq : seqn < 2 ^ 32)
    (hcrc : crc < 2 ^ 32) :
    Utils.encode_data_headers seqn crc =
      some (2 :: (toBytesBE 4 seqn ++ toBytesBE 4 crc)) := by
  have hseq' : seqn < 4294967296 := by norm_num at hseq; omega
  have hcrc' : crc < 4294967296 := by norm_num at hcrc; omega
  simp [Utils.encode_data_headers, pyToBytes, HEADER_SEQUENCE_LENGTH,
    HEADER_CHECKSUM_LENGTH, hseq', hcrc', SEGMENT_TYPE.value]

theorem encode_ack_eq (seqn : Nat) (hseq : seqn < 2 ^ 32) :
    Utils.encode_ack seqn = some (3 :: toBytesBE 4 seqn) := by
  have hseq' : seqn < 4294967296 := by norm_num at hseq; omega
  simp [Utils.encode_ack, pyToBytes, HEADER_SEQUENCE_LENGTH, hseq',
    SEGMENT_TYPE.value]

/-! ## Claims -/

/-- **C4** (codec round-trip).  For every `filesize < 2^32` and every
encodable filename, `decode_init (encode_init filesize filename)`
returns `(filesize, basename filename)` (the directory part of the
filename stripped); for `seqn, crc < 2^32` decoding the encoded Data
headers yields `(DATA, seqn, crc)`, and `decode_ack (encode_ack seqn) =
seqn`. -/
theorem claim_C4_roundtrip (filesize : Nat) (filename : List Nat)
    (seqn crc : Nat) (hfs : filesize < 2 ^ 32)
    (hfn : ∀ c ∈ filename, isScalar c) (hseq : seqn < 2 ^ 32)
    (hcrc : crc < 2 ^ 32) :
    (∃ seg, Utils.encode_init filesize filename = some seg ∧
       Utils.decode_init seg = .ok (filesize, basename filename)) ∧
    (∃ hd, Utils.encode_data_headers seqn crc = some hd ∧
       Utils.decode_data_headers hd = .ok (SEGMENT_TYPE.DATA, seqn, crc)) ∧
    (∃ seg, Utils.encode_ack seqn = some seg ∧
       Utils.decode_ack seg = .ok seqn) := by
  have hfs' : filesize < 256 ^ 4 := by norm_num at hfs ⊢; omega
  have hseq' : seqn < 256 ^ 4 := by norm_num at hseq ⊢; omega
  have hcrc' : crc < 256 ^ 4 := by norm_num at hcrc ⊢; omega
  refine ⟨⟨_, encode_init_eq filesize filename hfs hfn, ?_⟩,
    ⟨_, encode_data_headers_eq seqn crc hseq hcrc, ?_⟩,
    ⟨_, encode_ack_eq seqn hseq, ?_⟩⟩
  · rw [decode_init_shape 1 _ _ (toBytesBE_length 4 filesize)]
    rw [strDecode_strEncode filename hfn]
    simp [SEGMENT_TYPE.ofInt, fromBytesBE_toBytesBE_of_lt hfs']
  · rw [show (2 :: (toBytesBE 4 seqn ++ toBytesBE 4 crc) : List Nat) =
        2 :: (toBytesBE 4 seqn ++ (toBytesBE 4 crc ++ [])) by simp]
    rw [decode_data_headers_shape 2 _ _ _ (toBytesBE_length 4 seqn)
      (toBytesBE_length 4 crc)]
    simp [SEGMENT_TYPE.ofInt, fromBytesBE_toBytesBE_of_lt hseq',
      fromBytesBE_toBytesBE_of_lt hcrc']
  · rw [show (3 :: toBytesBE 4 seqn : List Nat) =
        3 :: (toBytesBE 4 seqn ++ []) by simp]
    rw [decode_ack_shape 3 _ _ (toBytesBE_length 4 seqn)]
    simp [SEGMENT_TYPE.ofInt, fromBytesBE_toBytesBE_of_lt hseq']

/-- Witness for C4 at `filesize = 300`, `filename = "/ab"` (code points
`[47, 97, 98]`), `seqn = 5`, `crc = 7`. -/
theorem claim_C4_witness :
    (300 < 2 ^ 32 ∧ (∀ c ∈ [47, 97, 98], isScalar c) ∧ 5 < 2 ^ 32 ∧
      7 < 2 ^ 32) ∧
    ((∃ seg, Utils.encode_init 300 [47, 97, 98] = some seg ∧
        Utils.decode_init seg = .ok (300, basename [47, 97, 98])) ∧
     (∃ hd, Utils.encode_data_headers 5 7 = some hd ∧
        Utils.decode_data_headers hd = .ok (SEGMENT_TYPE.DATA, 5, 7)) ∧
     (∃ seg, Utils.encode_ack 5 = some seg ∧
        Utils.decode_ack seg = .ok 5)) :=
  ⟨by decide,
   claim_C4_roundtrip 300 [47, 97, 98] 5 7 (by decide) (by decide)
     (by decide) (by decide)⟩

/-- **C1 counterexample.**  The frozen claim says decoding a buffer whose
type byte is not 1, 2 or 3 — the empty buffer included — returns a
decode-failure value and never raises.  On the empty buffer the type
field reads as 0 and `SEGMENT_TYPE(0)` raises `ValueError` past the
caller (modelled as `.raised`, distinct from the `None` failure value
`.retNone`), in all three decoders; likewise for type byte 5. -/
theorem claim_C1_counterexample :
    Utils.decode_init [] = .raised ∧
    Utils.decode_data_headers [] = .raised ∧
    Utils.decode_ack [] = .raised ∧
    Utils.decode_init [5, 0, 0, 0, 0] = .raised ∧
    Utils.decode_init [] ≠ .retNone := by decide

/-- **C1 amended.**  `decode_init` and `decode_ack` return `None` when
the type byte is a valid segment type other than their own; all three
decoders raise `ValueError` past the caller when the type byte is not
1, 2 or 3 (the empty buffer reads type 0); a buffer too short for its
declared fields does not report a failure — missing field bytes decode
as zero, and a well-typed Init decodes whenever its filename bytes are
valid UTF-8. -/
theorem claim_C1_amended (seg : List Nat) :
    ((fromBytesBE (seg.take 1) ≠ 1 ∧ fromBytesBE (seg.take 1) ≠ 2 ∧
        fromBytesBE (seg.take 1) ≠ 3) →
      Utils.decode_init seg = .raised ∧
      Utils.decode_data_headers seg = .raised ∧
      Utils.decode_ack seg = .raised) ∧
    ((fromBytesBE (seg.take 1) = 2 ∨ fromBytesBE (seg.take 1) = 3) →
      Utils.decode_init seg = .retNone) ∧
    ((fromBytesBE (seg.take 1) = 1 ∨ fromBytesBE (seg.take 1) = 2) →
      Utils.decode_ack seg = .retNone) ∧
    (fromBytesBE (seg.take 1) = 3 →
      Utils.decode_ack seg = .ok (fromBytesBE ((seg.drop 1).take 4))) ∧
    ((fromBytesBE (seg.take 1) = 1 ∨ fromBytesBE (seg.take 1) = 2 ∨
        fromBytesBE (seg.take 1) = 3) →
      ∃ trip, Utils.decode_data_headers seg = .ok trip) ∧
    (fromBytesBE (seg.take 1) = 1 →
      ∀ name, strDecode (seg.drop 5) = some name →
        Utils.decode_init seg =
          .ok (fromBytesBE ((seg.drop 1).take 4), basename name)) := by
  refine ⟨?_, ?_, ?_, ?_, ?_, ?_⟩
  · rintro ⟨h1, h2, h3⟩
    have ho : SEGMENT_TYPE.ofInt (fromBytesBE (seg.take 1)) = none := by
      simp [SEGMENT_TYPE.ofInt, h1, h2, h3]
    refine ⟨?_, ?_, ?_⟩ <;>
      simp [Utils.decode_init, Utils.decode_data_headers, Utils.decode_ack,
        HEADER_TYPE_LENGTH, ho]
  · rintro (h | h) <;>
      simp [Utils.decode_init, HEADER_TYPE_LENGTH, h, SEGMENT_TYPE.ofInt]
  · rintro (h | h) <;>
      simp [Utils.decode_ack, HEADER_TYPE_LENGTH, h, SEGMENT_TYPE.ofInt]
  · intro h
    simp [Utils.decode_ack, HEADER_TYPE_LENGTH, HEADER_SEQUENCE_LENGTH, h,
      SEGMENT_TYPE.ofInt]
  · have hdh : ∀ t : SEGMENT_TYPE,
        SEGMENT_TYPE.ofInt (fromBytesBE (seg.take 1)) = some t →
        Utils.decode_data_headers seg =
          .ok (t, fromBytesBE ((seg.drop 1).take 4),
            fromBytesBE ((seg.drop 5).take 4)) := by
      intro t ht
      simp [Utils.decode_data_headers, HEADER_TYPE_LENGTH,
        HEADER_SEQUENCE_LENGTH, HEADER_CHECKSUM_LENGTH, ht]
    rintro (h | h | h)
    · exact ⟨_, hdh .INIT (by simp [h, SEGMENT_TYPE.ofInt])⟩
    · exact ⟨_, hdh .DATA (by simp [h, SEGMENT_TYPE.ofInt])⟩
    · exact ⟨_, hdh .ACK (by simp [h, SEGMENT_TYPE.ofInt])⟩
  · intro h name hname
    simp [Utils.decode_init, HEADER_TYPE_LENGTH, HEADER_FILESIZE_LENGTH, h,
      SEGMENT_TYPE.ofInt, hname]

/-- Witness for the amended C1, discharging each branch at a concrete
buffer. -/
theorem claim_C1_witness :
    Utils.decode_init [9, 1] = .raised ∧
    Utils.decode_init [2, 7] = .retNone ∧
    Utils.decode_ack [1] = .retNone ∧
    Utils.decode_ack [3, 0, 0, 0, 7] = .ok 7 ∧
    (∃ trip, Utils.decode_data_headers [3] = .ok trip) ∧
    Utils.decode_init [1, 0, 0, 1, 44, 97] = .ok (300, [97]) := by
  refine ⟨((claim_C1_amended [9, 1]).1 (by decide)).1,
    (claim_C1_amended [2, 7]).2.1 (by decide),
    (claim_C1_amended [1]).2.2.1 (by decide),
    ?_, ?_, ?_⟩
  · exact (claim_C1_amended [3, 0, 0, 0, 7]).2.2.2.1 (by decide)
  · exact (claim_C1_amended [3]).2.2.2.2.1 (by decide)
  · exact (claim_C1_amended [1, 0, 0, 1, 44, 97]).2.2.2.2.2 (by decide)
      [97] (by decide)

/-! ## CRC-32 range and segment-processing helpers -/

theorem crcRound_lt {c : Nat} (h : c < 2 ^ 32) : crcRound c < 2 ^ 32 := by
  unfold crcRound
  split
  · exact Nat.xor_lt_two_pow (by omega) (by norm_num)
  · omega

theorem crcByte_lt {c b : Nat} (hc : c < 2 ^ 32) (hb : b < 256) :
    crcByte c b < 2 ^ 32 := by
  unfold crcByte
  have h0 : c ^^^ b < 2 ^ 32 :=
    Nat.xor_lt_two_pow hc (lt_trans hb (by norm_num))
  have hiter : ∀ (n : Nat) (x : Nat), x < 2 ^ 32 →
      Nat.iterate crcRound n x < 2 ^ 32 := by
    intro n
    induction n with
    | zero => intro x hx; simpa using hx
    | succ k ih =>
        intro x hx
        rw [Function.iterate_succ_apply]
        exact ih _ (crcRound_lt hx)
  exact hiter 8 _ h0

theorem crc32_lt (bs : List Nat) (h : ∀ b ∈ bs, b < 256) :
    crc32 bs < 2 ^ 32 := by
  unfold crc32
  have hfold : ∀ (l : List Nat) (c : Nat), (∀ b ∈ l, b < 256) → c < 2 ^ 32 →
      l.foldl crcByte c < 2 ^ 32 := by
    intro l
    induction l with
    | nil => intro c _ hc; simpa using hc
    | cons x xs ih =>
        intro c hl hc
        rw [List.foldl_cons]
        exact ih _ (fun b hb => hl b (List.mem_cons_of_mem x hb))
          (crcByte_lt hc (hl x (by simp)))
  exact Nat.xor_lt_two_pow (hfold bs 0xFFFFFFFF h (by norm_num)) (by norm_num)

/-- A valid (type byte 1, 2 or 3), unseen, CRC-correct segment is stored
in the reassembly buffer and queued for acknowledgement by
`__process_segment`. -/
theorem process_segment_store (st : ServerState) (seg : List Nat)
    (htype : fromBytesBE (seg.take 1) = 1 ∨ fromBytesBE (seg.take 1) = 2 ∨
      fromBytesBE (seg.take 1) = 3)
    (hacked : fromBytesBE ((seg.drop 1).take 4) ∉ st.acked)
    (hcrc : crc32 (seg.drop 9) = fromBytesBE ((seg.drop 5).take 4)) :
    process_segment st seg = .ok (true,
      { st with
        segments := dictInsert (fromBytesBE ((seg.drop 1).take 4)) (seg.drop 9)
          st.segments,
        pending_ack := st.pending_ack ++ [fromBytesBE ((seg.drop 1).take 4)] }) := by
  obtain ⟨t, ht⟩ : ∃ t, SEGMENT_TYPE.ofInt (fromBytesBE (seg.take 1)) = some t := by
    rcases htype with h | h | h
    · exact ⟨.INIT, by simp [SEGMENT_TYPE.ofInt, h]⟩
    · exact ⟨.DATA, by simp [SEGMENT_TYPE.ofInt, h]⟩
    · exact ⟨.ACK, by simp [SEGMENT_TYPE.ofInt, h]⟩
  have hdec : Utils.decode_data_headers seg = .ok (t,
      fromBytesBE ((seg.drop 1).take 4), fromBytesBE ((seg.drop 5).take 4)) := by
    simp [Utils.decode_data_headers, HEADER_TYPE_LENGTH, HEADER_SEQUENCE_LENGTH,
      HEADER_CHECKSUM_LENGTH, ht]
  unfold process_segment
  rw [hdec]
  rw [List.drop_one] at hacked
  simp [hacked, HEADER_SIZE, HEADER_TYPE_LENGTH, HEADER_SEQUENCE_LENGTH,
    HEADER_CHECKSUM_LENGTH, hcrc]

/-- A segment whose sequence number sits in `recentlyAcked` is re-acked
without being re-stored. -/
theorem process_segment_reack (st : ServerState) (seg : List Nat)
    (htype : fromBytesBE (seg.take 1) = 1 ∨ fromBytesBE (seg.take 1) = 2 ∨
      fromBytesBE (seg.take 1) = 3)
    (hacked : fromBytesBE ((seg.drop 1).take 4) ∈ st.acked) :
    process_segment st seg = .ok (true,
      { st with
        acked := st.acked.erase (fromBytesBE ((seg.drop 1).take 4)),
        pending_ack := st.pending_ack ++ [fromBytesBE ((seg.drop 1).take 4)] }) := by
  obtain ⟨t, ht⟩ : ∃ t, SEGMENT_TYPE.ofInt (fromBytesBE (seg.take 1)) = some t := by
    rcases htype with h | h | h
    · exact ⟨.INIT, by simp [SEGMENT_TYPE.ofInt, h]⟩
    · exact ⟨.DATA, by simp [SEGMENT_TYPE.ofInt, h]⟩
    · exact ⟨.ACK, by simp [SEGMENT_TYPE.ofInt, h]⟩
  have hdec : Utils.decode_data_headers seg = .ok (t,
      fromBytesBE ((seg.drop 1).take 4), fromBytesBE ((seg.drop 5).take 4)) := by
    simp [Utils.decode_data_headers, HEADER_TYPE_LENGTH, HEADER_SEQUENCE_LENGTH,
      HEADER_CHECKSUM_LENGTH, ht]
  unfold process_segment
  rw [hdec]
  rw [List.drop_one] at hacked
  simp [hacked]

/-- The datagram built by `__send_segment`, decomposed: its header
fields decode back to the sequence number and payload checksum, and the
bytes after the 9-byte header are exactly the payload. -/
theorem dataSegment_eq (seqn : Nat) (payload : List Nat)
    (hseq : seqn < 2 ^ 32) (hcrc : crc32 payload < 2 ^ 32) :
    dataSegment seqn payload =
      some (2 :: (toBytesBE 4 seqn ++ (toBytesBE 4 (crc32 payload) ++ payload))) := by
  unfold dataSegment
  rw [encode_data_headers_eq seqn (crc32 payload) hseq hcrc]
  simp

theorem dataSegment_fields (seqn : Nat) (payload : List Nat)
    (hseq : seqn < 2 ^ 32) (hcrc : crc32 payload < 2 ^ 32) :
    ∃ seg, dataSegment seqn payload = some seg ∧
      fromBytesBE (seg.take 1) = 2 ∧
      fromBytesBE ((seg.drop 1).take 4) = seqn ∧
      fromBytesBE ((seg.drop 5).take 4) = crc32 payload ∧
      seg.drop 9 = payload ∧ seg ≠ [] := by
  have hseq' : seqn < 256 ^ 4 := by norm_num at hseq ⊢; omega
  have hcrc' : crc32 payload < 256 ^ 4 := by norm_num at hcrc ⊢; omega
  have hds := dataSegment_eq seqn payload hseq hcrc
  refine ⟨_, hds, ?_, ?_, ?_, ?_, ?_⟩
  · rfl
  · show fromBytesBE ((toBytesBE 4 seqn ++
      (toBytesBE 4 (crc32 payload) ++ payload)).take 4) = seqn
    rw [List.take_left' (toBytesBE_length 4 seqn),
      fromBytesBE_toBytesBE_of_lt hseq']
  · show fromBytesBE (((toBytesBE 4 seqn ++
      (toBytesBE 4 (crc32 payload) ++ payload)).drop 4).take 4) = crc32 payload
    rw [List.drop_left' (toBytesBE_length 4 seqn),
      List.take_left' (toBytesBE_length 4 (crc32 payload)),
      fromBytesBE_toBytesBE_of_lt hcrc']
  · show (toBytesBE 4 seqn ++
      (toBytesBE 4 (crc32 payload) ++ payload)).drop 8 = payload
    rw [← List.append_assoc]
    exact List.drop_left' (by simp [toBytesBE_length])
  · simp

/-- **C2** (code-bug evidence).  During RECEIVING the zero-length branch
of `listen` buffers and counts the null datagram but has no `continue`:
the body falls through to `__process_segment(b"")`, whose
`SEGMENT_TYPE(0)` lookup raises an uncaught `ValueError`.  The receive
loop therefore dies with an error on the *first* zero-length datagram
that arrives before `nextOffset >= filesize` — it is processed
immediately, and the 11-null close is unreachable. -/
theorem claim_C2_null_crash (filesize : Nat) (s : ListenState)
    (hnulls : s.nulls ≤ CONNECTION_END_NULLS_COUNT)
    (hnext : s.next_segment < filesize) :
    listenStep filesize s [] = .raised := by
  have hps : ∀ sv : ServerState, process_segment sv [] = .raised := fun sv => rfl
  unfold listenStep
  rw [if_pos rfl, if_pos hnulls]
  unfold listenProcess
  rw [if_neg (by simpa using Nat.not_le.mpr hnext), hps]

/-- Witness for C2: a fresh receiver (null counter 0, `nextOffset = 0`,
expected filesize 1) crashes on one empty datagram. -/
theorem claim_C2_witness :
    ((0 : Nat) ≤ CONNECTION_END_NULLS_COUNT ∧ (0 : Nat) < 1) ∧
    listenStep 1 ⟨⟨[], [], []⟩, 0, [], 0, []⟩ [] = .raised :=
  ⟨by decide, claim_C2_null_crash 1 ⟨⟨[], [], []⟩, 0, [], 0, []⟩
    (by decide) (by decide)⟩

/-- **C6** (CRC gate).  A Data segment whose sequence number is not in
`recentlyAcked` and whose payload CRC-32 differs from the claimed
checksum makes `__process_segment` report failure with the state
untouched — nothing stored, nothing queued for ack — and the enclosing
RECEIVING iteration leaves the whole listen state (output file included)
unchanged. -/
theorem claim_C6_crc_gate (st : ServerState) (seg : List Nat)
    (htype : fromBytesBE (seg.take 1) = 2)
    (hacked : fromBytesBE ((seg.drop 1).take 4) ∉ st.acked)
    (hcrc : crc32 (seg.drop 9) ≠ fromBytesBE ((seg.drop 5).take 4)) :
    process_segment st seg = .ok (false, st) ∧
    ∀ (filesize : Nat) (ls : ListenState), ls.server = st →
      ls.next_segment < filesize → listenStep filesize ls seg = .continued ls := by
  have hdec : Utils.decode_data_headers seg = .ok (.DATA,
      fromBytesBE ((seg.drop 1).take 4), fromBytesBE ((seg.drop 5).take 4)) := by
    simp [Utils.decode_data_headers, HEADER_TYPE_LENGTH, HEADER_SEQUENCE_LENGTH,
      HEADER_CHECKSUM_LENGTH, htype, SEGMENT_TYPE.ofInt]
  have hp : process_segment st seg = .ok (false, st) := by
    unfold process_segment
    rw [hdec]
    rw [List.drop_one] at hacked
    simp [hacked, HEADER_SIZE, HEADER_TYPE_LENGTH, HEADER_SEQUENCE_LENGTH,
      HEADER_CHECKSUM_LENGTH, hcrc]
  refine ⟨hp, ?_⟩
  intro filesize ls hserver hnext
  subst hserver
  have hne : seg ≠ [] := by
    intro he
    rw [he] at htype
    simp [fromBytesBE] at htype
  unfold listenStep
  rw [if_neg hne]
  unfold listenProcess
  rw [if_neg (by simpa using Nat.not_le.mpr hnext), hp]

/-- Witness for C6: a 10-byte Data segment claiming checksum 1 for the
payload `[42]` (whose CRC-32 is not 1) is dropped without any state
change. -/
theorem claim_C6_witness :
    (crc32 [42] ≠ 1) ∧
    process_segment ⟨[], [], []⟩ [2, 0, 0, 0, 0, 0, 0, 0, 1, 42] =
      .ok (false, ⟨[], [], []⟩) ∧
    listenStep 1 ⟨⟨[], [], []⟩, 0, [], 0, []⟩ [2, 0, 0, 0, 0, 0, 0, 0, 1, 42] =
      .continued ⟨⟨[], [], []⟩, 0, [], 0, []⟩ :=
  ⟨by decide,
   (claim_C6_crc_gate ⟨[], [], []⟩ _ (by decide) (by decide) (by decide)).1,
   (claim_C6_crc_gate ⟨[], [], []⟩ _ (by decide) (by decide) (by decide)).2
     1 ⟨⟨[], [], []⟩, 0, [], 0, []⟩ rfl (by decide)⟩

/-- **C10** (implicit: no type check on data path).  `__process_segment`
decodes the type byte but never compares it with `DATA`: any datagram
with a decodable type byte (1, 2 or 3), an unseen sequence field and a
matching payload CRC is stored in the reassembly buffer under its
sequence field and queued for acknowledgement — Init and Ack type bytes
included. -/
theorem claim_C10_no_type_check (st : ServerState) (seg : List Nat)
    (htype : fromBytesBE (seg.take 1) = 1 ∨ fromBytesBE (seg.take 1) = 2 ∨
      fromBytesBE (seg.take 1) = 3)
    (hacked : fromBytesBE ((seg.drop 1).take 4) ∉ st.acked)
    (hcrc : crc32 (seg.drop 9) = fromBytesBE ((seg.drop 5).take 4)) :
    process_segment st seg = .ok (true,
      { st with
        segments := dictInsert (fromBytesBE ((seg.drop 1).take 4)) (seg.drop 9)
          st.segments,
        pending_ack := st.pending_ack ++ [fromBytesBE ((seg.drop 1).take 4)] }) :=
  process_segment_store st seg htype hacked hcrc

/-- Witness for C10: a datagram with the *Ack* type byte 3 and a correct
CRC for payload `[9]` is accepted and stored under sequence 5. -/
theorem claim_C10_witness :
    (fromBytesBE (((3 : Nat) :: ([0, 0, 0, 5] ++
        (toBytesBE 4 (crc32 [9]) ++ [9]))).take 1) = 3) ∧
    process_segment ⟨[], [], []⟩
        (3 :: ([0, 0, 0, 5] ++ (toBytesBE 4 (crc32 [9]) ++ [9]))) =
      .ok (true, ⟨[(5, [9])], [5], []⟩) := by
  refine ⟨by decide, ?_⟩
  have h := claim_C10_no_type_check ⟨[], [], []⟩
    (3 :: ([0, 0, 0, 5] ++ (toBytesBE 4 (crc32 [9]) ++ [9])))
    (by decide) (by decide) (by decide)
  rw [h]
  decide

/-! ## Ack-flush characterization -/

/-- Characterization of the `__send_acks` send loop: the emitted
sequence numbers are a prefix of the pending list, the batch never
exceeds `MAX_ACK_PER_BATCH`, and when no send fails the prefix is the
full first batch. -/
theorem sendLoop_spec (oracle : Nat → Bool) :
    ∀ (pend sent0 : List Nat), (∀ q ∈ pend, q < 2 ^ 32) →
      sent0.length < MAX_ACK_PER_BATCH →
      ∃ n, (sendLoop oracle sent0 pend).1 = sent0 ++ pend.take n ∧
        (sendLoop oracle sent0 pend).1.length ≤ MAX_ACK_PER_BATCH ∧
        ((sendLoop oracle sent0 pend).2 = false →
          (sendLoop oracle sent0 pend).1 =
            sent0 ++ pend.take (MAX_ACK_PER_BATCH - sent0.length)) := by
  intro pend
  induction pend with
  | nil =>
      intro sent0 _ hlen
      exact ⟨0, by simp [sendLoop], by simp [sendLoop]; omega,
        fun _ => by simp [sendLoop]⟩
  | cons a rest ih =>
      intro sent0 hq hlen
      have ha : (Utils.encode_ack a).isSome = true := by
        rw [encode_ack_eq a (hq a (by simp))]; rfl
      by_cases ho : oracle sent0.length = true
      · by_cases hcap : MAX_ACK_PER_BATCH ≤ (sent0 ++ [a]).length
        · have hres : sendLoop oracle sent0 (a :: rest) = (sent0 ++ [a], false) := by
            rw [sendLoop.eq_2, if_pos ha, if_pos ho]
            simp only []
            rw [if_pos hcap]
          refine ⟨1, by rw [hres]; simp, ?_, ?_⟩
          · rw [hres]
            simp only [List.length_append, List.length_cons,
              List.length_nil] at hcap ⊢
            omega
          · intro _
            rw [hres]
            have hd : MAX_ACK_PER_BATCH - sent0.length = 1 := by
              simp only [List.length_append, List.length_cons,
                List.length_nil] at hcap
              omega
            rw [hd]
            simp
        · have hres : sendLoop oracle sent0 (a :: rest) =
              sendLoop oracle (sent0 ++ [a]) rest := by
            rw [sendLoop.eq_2, if_pos ha, if_pos ho]
            simp only []
            rw [if_neg hcap]
          obtain ⟨n, h1, h2, h3⟩ := ih (sent0 ++ [a])
            (fun q hqr => hq q (List.mem_cons_of_mem a hqr))
            (by simp only [List.length_append, List.length_cons,
              List.length_nil] at hcap ⊢; omega)
          refine ⟨n + 1, ?_, ?_, ?_⟩
          · rw [hres, h1, List.take_succ_cons, List.append_assoc]
            rfl
          · rw [hres]; exact h2
          · intro hf
            rw [hres] at hf ⊢
            rw [h3 hf]
            have hd : MAX_ACK_PER_BATCH - sent0.length =
                (MAX_ACK_PER_BATCH - (sent0 ++ [a]).length) + 1 := by
              simp only [List.length_append, List.length_cons,
                List.length_nil] at hcap ⊢
              omega
            rw [hd, List.take_succ_cons, List.append_assoc]
            rfl
      · have hres : sendLoop oracle sent0 (a :: rest) = (sent0, true) := by
          rw [sendLoop.eq_2, if_pos ha, if_neg ho]
        refine ⟨0, by rw [hres]; simp, ?_, ?_⟩
        · rw [hres]
          simp only []
          omega
        · intro hf
          rw [hres] at hf
          simp at hf

/-- Counting through the removal pass `for ack in processed:
if ack in pending: pending.remove(ack)`: when the removed multiset is
contained in the list, each occurrence is removed exactly once. -/
theorem count_foldl_erase :
    ∀ (s p : List Nat), (∀ q, s.count q ≤ p.count q) →
      ∀ q, (s.foldl (fun l a => l.erase a) p).count q = p.count q - s.count q := by
  intro s
  induction s with
  | nil => intro p _ q; simp
  | cons a s ih =>
      intro p hle q
      have hle' : ∀ r, s.count r ≤ (p.erase a).count r := by
        intro r
        have h1 := hle r
        rw [List.count_erase]
        by_cases hra : a = r
        · subst hra
          simp [List.count_cons] at h1 ⊢
          omega
        · have : (a == r) = false := by simp [hra]
          simp [List.count_cons, this] at h1 ⊢
          omega
      rw [List.foldl_cons, ih (p.erase a) hle' q, List.count_erase]
      have h1 := hle q
      by_cases hra : a = q
      · subst hra
        simp [List.count_cons] at h1 ⊢
        omega
      · have : (a == q) = false := by simp [hra]
        simp [List.count_cons, this] at h1 ⊢
        try omega

/-- **C3 counterexample.**  With `pendingAcks = [0, 5]` and the second
`sendto` failing, sequence number 0 is emitted (moved into
`recentlyAcked`) yet still sits in `pendingAcks` after the flush: the
removal pass lives inside the `try` and is skipped entirely on a send
failure, so sent sequence numbers are *not* moved out of `pendingAcks`. -/
theorem claim_C3_counterexample :
    (send_acks (fun i => i == 0) ⟨[], [0, 5], []⟩).sent = [0] ∧
    0 ∈ (send_acks (fun i => i == 0) ⟨[], [0, 5], []⟩).state.pending_ack ∧
    0 ∈ (send_acks (fun i => i == 0) ⟨[], [0, 5], []⟩).state.acked ∧
    (send_acks (fun i => i == 0) ⟨[], [0, 5], []⟩).failed = true := by
  decide

/-- **C3 amended.**  One flush emits one Ack datagram per pending
sequence number, in list order, up to `MAX_ACK_PER_BATCH` (200); every
emitted sequence number is appended to `recentlyAcked`.  When no send
fails, the emitted batch is exactly the first 200 pending entries and
each emitted occurrence is removed from `pendingAcks` (count equation:
no pending entry is lost).  When a send fails mid-flush the flush stops
early and `pendingAcks` is left completely unchanged — the not-yet-sent
entries remain for the next flush, but the already-sent ones remain in
`pendingAcks` too (the removal pass is skipped). -/
theorem claim_C3_ack_flush (st : ServerState) (oracle : Nat → Bool)
    (hq : ∀ q ∈ st.pending_ack, q < 2 ^ 32) :
    (∃ n, (send_acks oracle st).sent = st.pending_ack.take n) ∧
    (send_acks oracle st).sent.length ≤ MAX_ACK_PER_BATCH ∧
    (send_acks oracle st).state.acked = st.acked ++ (send_acks oracle st).sent ∧
    ((send_acks oracle st).failed = false →
      (send_acks oracle st).sent = st.pending_ack.take MAX_ACK_PER_BATCH ∧
      ∀ q, (send_acks oracle st).state.pending_ack.count q +
        (send_acks oracle st).sent.count q = st.pending_ack.count q) ∧
    ((send_acks oracle st).failed = true →
      (send_acks oracle st).state.pending_ack = st.pending_ack) := by
  obtain ⟨n, h1, h2, h3⟩ := sendLoop_spec oracle st.pending_ack [] hq (by decide)
  simp only [List.nil_append] at h1 h3
  have hsent : (send_acks oracle st).sent = (sendLoop oracle [] st.pending_ack).1 := rfl
  have hacked : (send_acks oracle st).state.acked =
      st.acked ++ (sendLoop oracle [] st.pending_ack).1 := rfl
  have hfail : (send_acks oracle st).failed = (sendLoop oracle [] st.pending_ack).2 := rfl
  have hpend : (send_acks oracle st).state.pending_ack =
      (if (sendLoop oracle [] st.pending_ack).2 then st.pending_ack
       else (sendLoop oracle [] st.pending_ack).1.foldl
         (fun p a => p.erase a) st.pending_ack) := rfl
  refine ⟨⟨n, by rw [hsent, h1]⟩, by rw [hsent]; exact h2,
    by rw [hacked, hsent], ?_, ?_⟩
  · intro hf
    rw [hfail] at hf
    have hs : (send_acks oracle st).sent = st.pending_ack.take MAX_ACK_PER_BATCH := by
      rw [hsent, h3 hf]
      simp
    refine ⟨hs, ?_⟩
    intro q
    have hcnt : ∀ r, ((send_acks oracle st).sent).count r ≤ st.pending_ack.count r := by
      intro r
      rw [hs]
      exact (List.take_sublist _ _).count_le r
    rw [hpend, if_neg (by simp [hf]), ← hsent,
      count_foldl_erase _ _ hcnt q]
    have := hcnt q
    omega
  · intro hf
    rw [hfail] at hf
    rw [hpend, if_pos hf]

/-- Witness for the amended C3: three pending acks (with a duplicate),
all sends succeeding — all three datagrams go out, all land in
`recentlyAcked`, and `pendingAcks` empties. -/
theorem claim_C3_witness :
    (send_acks (fun _ => true) ⟨[], [7, 7, 8], []⟩).sent = [7, 7, 8] ∧
    (send_acks (fun _ => true) ⟨[], [7, 7, 8], []⟩).state.acked = [7, 7, 8] ∧
    (send_acks (fun _ => true) ⟨[], [7, 7, 8], []⟩).state.pending_ack = [] := by
  obtain ⟨-, -, hacked, hsucc, -⟩ :=
    claim_C3_ack_flush ⟨[], [7, 7, 8], []⟩ (fun _ => true) (by decide)
  obtain ⟨hs, -⟩ := hsucc (by decide)
  refine ⟨by rw [hs]; decide, by rw [hacked, hs]; decide, by decide⟩

/-- One `__send_acks` call with a single pending sequence number and a
healthy socket: one Ack datagram out, the entry moves from `pendingAcks`
to `recentlyAcked`. -/
theorem send_acks_singleton (segs : List (Nat × List Nat))
    (acked0 : List Nat) (x : Nat) (hx : x < 2 ^ 32) :
    send_acks (fun _ => true) ⟨segs, [x], acked0⟩ =
      { state := ⟨segs, [], acked0 ++ [x]⟩, sent := [x], failed := false } := by
  have hx' : (Utils.encode_ack x).isSome = true := by
    rw [encode_ack_eq x hx]; rfl
  have hsl : sendLoop (fun _ => true) [] [x] = ([x], false) := by
    rw [sendLoop.eq_2, if_pos hx']
    simp [sendLoop, MAX_ACK_PER_BATCH]
  unfold send_acks
  rw [hsl]
  simp [List.erase_cons_head]

/-- **C7** (idempotent duplicate handling).  Receiving a valid Data
segment, flushing its ack, then receiving the *same* segment again:
the first receipt stores the payload and queues the ack; the flush emits
one Ack datagram and moves the sequence number into `recentlyAcked`;
the second receipt succeeds *without touching the reassembly buffer*
(no second payload write) and re-queues the sequence number, whose
flush emits a second Ack datagram for the same offset. -/
theorem claim_C7_idempotent (sv : ServerState) (seqn : Nat)
    (payload seg : List Nat) (hseq : seqn < 2 ^ 32)
    (hbytes : ∀ b ∈ payload, b < 256)
    (hseg : dataSegment seqn payload = some seg)
    (hacked : seqn ∉ sv.acked) (hpend : sv.pending_ack = []) :
    ∃ sv1 sv2 sv3,
      process_segment sv seg = .ok (true, sv1) ∧
      sv1.segments = dictInsert seqn payload sv.segments ∧
      sv1.pending_ack = [seqn] ∧
      (send_acks (fun _ => true) sv1).sent = [seqn] ∧
      (send_acks (fun _ => true) sv1).state = sv2 ∧
      sv2.pending_ack = [] ∧ seqn ∈ sv2.acked ∧ sv2.segments = sv1.segments ∧
      process_segment sv2 seg = .ok (true, sv3) ∧
      sv3.segments = sv1.segments ∧ sv3.pending_ack = [seqn] ∧
      (send_acks (fun _ => true) sv3).sent = [seqn] := by
  obtain ⟨seg', hds, f1, f2, f3, f4, f5⟩ :=
    dataSegment_fields seqn payload hseq (crc32_lt payload hbytes)
  have hseg' : seg = seg' := by
    rw [hseg] at hds
    exact Option.some_inj.mp hds
  subst hseg'
  have hstore := process_segment_store sv seg (Or.inr (Or.inl f1))
    (by rw [f2]; exact hacked) (by rw [f4, f3])
  rw [f2, f4, hpend] at hstore
  refine ⟨{ sv with segments := dictInsert seqn payload sv.segments, pending_ack := [seqn] },
    ⟨dictInsert seqn payload sv.segments, [], sv.acked ++ [seqn]⟩,
    { sv with segments := dictInsert seqn payload sv.segments, pending_ack := [seqn], acked := (sv.acked ++ [seqn]).erase seqn },
    ?_, rfl, rfl, ?_, ?_, rfl, ?_, rfl, ?_, rfl, rfl, ?_⟩
  · simpa using hstore
  · rw [send_acks_singleton _ _ _ hseq]
  · rw [send_acks_singleton _ _ _ hseq]
  · simp
  · have hreack := process_segment_reack
      ⟨dictInsert seqn payload sv.segments, [], sv.acked ++ [seqn]⟩ seg
      (Or.inr (Or.inl f1)) (by rw [f2]; simp)
    rw [f2] at hreack
    simpa using hreack
  · rw [send_acks_singleton _ _ _ hseq]

/-- Witness for C7 at `seqn = 0`, payload `[1, 2, 3]`, fresh receiver
state. -/
theorem claim_C7_witness :
    ((0 : Nat) < 2 ^ 32 ∧ (∀ b ∈ [1, 2, 3], b < 256) ∧
      dataSegment 0 [1, 2, 3] =
        some (2 :: (toBytesBE 4 0 ++ (toBytesBE 4 (crc32 [1, 2, 3]) ++ [1, 2, 3]))) ∧
      0 ∉ (⟨[], [], []⟩ : ServerState).acked) ∧
    (∃ sv1 sv2 sv3,
      process_segment ⟨[], [], []⟩
          (2 :: (toBytesBE 4 0 ++ (toBytesBE 4 (crc32 [1, 2, 3]) ++ [1, 2, 3]))) =
        .ok (true, sv1) ∧
      sv1.segments = dictInsert 0 [1, 2, 3] (⟨[], [], []⟩ : ServerState).segments ∧
      sv1.pending_ack = [0] ∧
      (send_acks (fun _ => true) sv1).sent = [0] ∧
      (send_acks (fun _ => true) sv1).state = sv2 ∧
      sv2.pending_ack = [] ∧ 0 ∈ sv2.acked ∧ sv2.segments = sv1.segments ∧
      process_segment sv2
          (2 :: (toBytesBE 4 0 ++ (toBytesBE 4 (crc32 [1, 2, 3]) ++ [1, 2, 3]))) =
        .ok (true, sv3) ∧
      sv3.segments = sv1.segments ∧ sv3.pending_ack = [0] ∧
      (send_acks (fun _ => true) sv3).sent = [0]) :=
  ⟨⟨by decide, by decide, by decide, by decide⟩,
   claim_C7_idempotent ⟨[], [], []⟩ 0 [1, 2, 3] _ (by decide) (by decide)
     (by decide) (by decide) rfl⟩

/-- A RECEIVING iteration that ingests a valid, unseen, CRC-correct
segment (null counter at zero) stores it, queues its ack and drains. -/
theorem listenStep_store (filesize : Nat) (ls : ListenState) (seg : List Nat)
    (hne : seg ≠ [])
    (htype : fromBytesBE (seg.take 1) = 1 ∨ fromBytesBE (seg.take 1) = 2 ∨
      fromBytesBE (seg.take 1) = 3)
    (hacked : fromBytesBE ((seg.drop 1).take 4) ∉ ls.server.acked)
    (hcrc : crc32 (seg.drop 9) = fromBytesBE ((seg.drop 5).take 4))
    (hnulls : ls.nulls = 0)
    (hnext : ls.next_segment < filesize) :
    listenStep filesize ls seg =
      listenDrain { ls with server := { ls.server with segments := dictInsert (fromBytesBE ((seg.drop 1).take 4)) (seg.drop 9) ls.server.segments, pending_ack := ls.server.pending_ack ++ [fromBytesBE ((seg.drop 1).take 4)] } } := by
  unfold listenStep
  rw [if_neg hne]
  unfold listenProcess
  rw [if_neg (by simpa using Nat.not_le.mpr hnext),
    process_segment_store ls.server seg htype hacked hcrc]
  simp only []
  rw [if_neg (by simp [hnulls])]

theorem drainLoopFuel_next_mono :
    ∀ (fuel : Nat) (segs : List (Nat × List Nat)) (next : Nat)
      (file : List Nat), next ≤ (drainLoopFuel fuel segs next file).2.1 := by
  intro fuel
  induction fuel with
  | zero => intro segs next file; exact le_refl _
  | succ f ih =>
      intro segs next file
      rw [drainLoopFuel]
      cases hl : dictLookup next segs with
      | none => exact le_refl _
      | some p => exact le_trans (Nat.le_add_right _ _) (ih _ _ _)

/-- **C5** (out-of-order reassembly).  The drain runs the exact while
loop — while `nextOffset` has an entry in the buffer it pops that entry,
appends it to the file and advances `nextOffset` by the popped payload's
length — and consequently valid segments for offsets `[0,100)`,
`[200,300)`, `[100,200)` delivered in that arrival order produce the
file bytes in order `[0,300)`, with the bytes at `[100,300)` flushed
only once the gap at `[100,200)` is filled. -/
theorem claim_C5_reassembly (p0 p1 p2 : List Nat)
    (h0 : p0.length = 100) (h1 : p1.length = 100) (h2 : p2.length = 100)
    (hb0 : ∀ b ∈ p0, b < 256) (hb1 : ∀ b ∈ p1, b < 256)
    (hb2 : ∀ b ∈ p2, b < 256)
    (seg0 seg1 seg2 : List Nat)
    (hs0 : dataSegment 0 p0 = some seg0)
    (hs1 : dataSegment 100 p1 = some seg1)
    (hs2 : dataSegment 200 p2 = some seg2) :
    (∀ segs next file payload, dictLookup next segs = some payload →
       drainLoop segs next file =
         drainLoop (dictErase next segs) (next + payload.length)
           (file ++ payload)) ∧
    (∀ segs next file, dictLookup next segs = none →
       drainLoop segs next file = (segs, next, file)) ∧
    ∃ ls1 ls2 ls3,
      listenStep 300 ⟨⟨[], [], []⟩, 0, [], 0, []⟩ seg0 = .continued ls1 ∧
      ls1.file = p0 ∧ ls1.next_segment = 100 ∧ ls1.server.segments = [] ∧
      listenStep 300 ls1 seg2 = .continued ls2 ∧
      ls2.file = p0 ∧ ls2.next_segment = 100 ∧
      ls2.server.segments = [(200, p2)] ∧
      listenStep 300 ls2 seg1 = .continued ls3 ∧
      ls3.file = (p0 ++ p1) ++ p2 ∧ ls3.next_segment = 300 ∧
      ls3.server.segments = [] := by
  refine ⟨?_, ?_, ?_⟩
  · intro segs next file payload hl
    rw [drainLoop_while_eq, hl]
  · intro segs next file hl
    rw [drainLoop_while_eq, hl]
  obtain ⟨seg0', hds0, g01, g02, g03, g04, g05⟩ :=
    dataSegment_fields 0 p0 (by norm_num) (crc32_lt p0 hb0)
  obtain ⟨seg1', hds1, g11, g12, g13, g14, g15⟩ :=
    dataSegment_fields 100 p1 (by norm_num) (crc32_lt p1 hb1)
  obtain ⟨seg2', hds2, g21, g22, g23, g24, g25⟩ :=
    dataSegment_fields 200 p2 (by norm_num) (crc32_lt p2 hb2)
  have he0 : seg0 = seg0' := by rw [hs0] at hds0; exact Option.some_inj.mp hds0
  have he1 : seg1 = seg1' := by rw [hs1] at hds1; exact Option.some_inj.mp hds1
  have he2 : seg2 = seg2' := by rw [hs2] at hds2; exact Option.some_inj.mp hds2
  subst he0 he1 he2
  rw [List.drop_one] at g02 g12 g22
  refine ⟨⟨⟨[], [0], []⟩, 0, [], 100, p0⟩,
    ⟨⟨[(200, p2)], [0, 200], []⟩, 0, [], 100, p0⟩,
    ⟨⟨[], [0, 200, 100], []⟩, 0, [], 300, (p0 ++ p1) ++ p2⟩,
    ?_, rfl, rfl, rfl, ?_, rfl, rfl, rfl, ?_, rfl, rfl, rfl⟩
  · rw [listenStep_store 300 _ _ g05 (Or.inr (Or.inl g01))
      (by rw [List.drop_one, g02]; simp) (by rw [g04, g03]) rfl (by norm_num)]
    simp [listenDrain, drainLoop, drainLoopFuel, dictLookup, dictErase,
      dictInsert, g02, g04, h0]
  · rw [listenStep_store 300 _ _ g25 (Or.inr (Or.inl g21))
      (by rw [List.drop_one, g22]; simp) (by rw [g24, g23]) rfl (by norm_num)]
    simp [listenDrain, drainLoop, drainLoopFuel, dictLookup, dictErase,
      dictInsert, g22, g24, h2]
  · rw [listenStep_store 300 _ _ g15 (Or.inr (Or.inl g11))
      (by rw [List.drop_one, g12]; simp) (by rw [g14, g13]) rfl (by norm_num)]
    simp [listenDrain, drainLoop, drainLoopFuel, dictLookup, dictErase,
      dictInsert, g12, g14, h1, h2]

/-- Witness for C5: three concrete 100-byte payloads delivered in the
order `[0,100)`, `[200,300)`, `[100,200)`. -/
theorem claim_C5_witness :
    ∃ ls1 ls2 ls3,
      listenStep 300 ⟨⟨[], [], []⟩, 0, [], 0, []⟩
          (2 :: (toBytesBE 4 0 ++ (toBytesBE 4 (crc32 (List.replicate 100 1)) ++ List.replicate 100 1))) =
        .continued ls1 ∧
      ls1.file = List.replicate 100 1 ∧ ls1.next_segment = 100 ∧
      ls1.server.segments = [] ∧
      listenStep 300 ls1
          (2 :: (toBytesBE 4 200 ++ (toBytesBE 4 (crc32 (List.replicate 100 3)) ++ List.replicate 100 3))) =
        .continued ls2 ∧
      ls2.file = List.replicate 100 1 ∧ ls2.next_segment = 100 ∧
      ls2.server.segments = [(200, List.replicate 100 3)] ∧
      listenStep 300 ls2
          (2 :: (toBytesBE 4 100 ++ (toBytesBE 4 (crc32 (List.replicate 100 2)) ++ List.replicate 100 2))) =
        .continued ls3 ∧
      ls3.file = (List.replicate 100 1 ++ List.replicate 100 2) ++
        List.replicate 100 3 ∧
      ls3.next_segment = 300 ∧
      ls3.server.segments = [] :=
  (claim_C5_reassembly (List.replicate 100 1) (List.replicate 100 2)
    (List.replicate 100 3) (by decide) (by decide) (by decide)
    (by decide) (by decide) (by decide) _ _ _
    (dataSegment_eq 0 _ (by norm_num) (crc32_lt _ (by decide)))
    (dataSegment_eq 100 _ (by norm_num) (crc32_lt _ (by decide)))
    (dataSegment_eq 200 _ (by norm_num) (crc32_lt _ (by decide)))).2.2

/-- **C9 amended.**  `nextOffset` never decreases across a RECEIVING
iteration (the drain only advances it).  The second half of the frozen
claim — that the reassembly buffer only ever holds offsets at or above
`nextOffset` — fails on the code (see the counterexample): a duplicate
segment arriving before its ack is flushed is re-stored below
`nextOffset`, and the drain removes only entries whose offset exactly
equals the advancing `nextOffset`. -/
theorem claim_C9_amended (filesize : Nat) (s s' : ListenState)
    (seg : List Nat)
    (h : listenStep filesize s seg = .continued s' ∨
      listenStep filesize s seg = .closed s') :
    s.next_segment ≤ s'.next_segment := by
  have hdrain : ∀ (t u : ListenState), listenDrain t = .continued u →
      t.next_segment ≤ u.next_segment := by
    intro t u hd
    unfold listenDrain at hd
    have h2 := StepOutcome.continued.inj hd
    rw [← h2]
    exact drainLoopFuel_next_mono _ _ _ _
  have hproc : ∀ (t : ListenState),
      (listenProcess filesize t seg = .continued s' ∨
        listenProcess filesize t seg = .closed s') →
      t.next_segment ≤ s'.next_segment := by
    intro t ht
    unfold listenProcess at ht
    rcases ht with ht | ht
    · split at ht
      · rw [StepOutcome.continued.inj ht]
      · split at ht
        · simp at ht
        · simp at ht
        · rw [← StepOutcome.continued.inj ht]
        · simp only [] at ht
          split at ht
          · split at ht
            · simp at ht
            · simp at ht
            · have hh := hdrain _ _ ht
              simpa using hh
          · have hh := hdrain _ _ ht
            simpa using hh
    · split at ht
      · simp at ht
      · split at ht
        · simp at ht
        · simp at ht
        · simp at ht
        · simp only [] at ht
          split at ht
          · split at ht
            · simp at ht
            · simp at ht
            · exact absurd ht (by unfold listenDrain; simp)
          · exact absurd ht (by unfold listenDrain; simp)
  unfold listenStep at h
  rcases h with h | h
  · split at h
    · split at h
      · have hh := hproc _ (Or.inl h)
        simpa using hh
      · simp at h
    · exact hproc _ (Or.inl h)
  · split at h
    · split at h
      · have hh := hproc _ (Or.inr h)
        simpa using hh
      · rw [← (StepOutcome.closed.inj h)]
    · exact hproc _ (Or.inr h)

/-- Witness for the amended C9: a CRC-failing datagram leaves the state
unchanged and `nextOffset` does not decrease. -/
theorem claim_C9_witness :
    (listenStep 2 ⟨⟨[], [], []⟩, 0, [], 0, []⟩
        [2, 0, 0, 0, 0, 0, 0, 0, 1, 42] =
      StepOutcome.continued ⟨⟨[], [], []⟩, 0, [], 0, []⟩) ∧
    ((⟨⟨[], [], []⟩, 0, [], 0, []⟩ : ListenState).next_segment ≤
      (⟨⟨[], [], []⟩, 0, [], 0, []⟩ : ListenState).next_segment) :=
  ⟨by decide,
   claim_C9_amended 2 ⟨⟨[], [], []⟩, 0, [], 0, []⟩ ⟨⟨[], [], []⟩, 0, [], 0, []⟩
     [2, 0, 0, 0, 0, 0, 0, 0, 1, 42] (Or.inl (by decide))⟩

/-- **C9 counterexample.**  A 1-byte segment at offset 0 arrives, is
flushed (`nextOffset` becomes 1), and — its ack still pending, so its
sequence number is not yet in `recentlyAcked` — arrives again: the
duplicate is re-stored, leaving the reassembly buffer with an entry at
offset 0 < `nextOffset` = 1.  The frozen invariant "the buffer contains
only entries whose offset is ≥ nextOffset" is false on the code. -/
theorem claim_C9_counterexample :
    listenStep 2 ⟨⟨[], [], []⟩, 0, [], 0, []⟩
        (2 :: (toBytesBE 4 0 ++ (toBytesBE 4 (crc32 [7]) ++ [7]))) =
      .continued ⟨⟨[], [0], []⟩, 0, [], 1, [7]⟩ ∧
    listenStep 2 ⟨⟨[], [0], []⟩, 0, [], 1, [7]⟩
        (2 :: (toBytesBE 4 0 ++ (toBytesBE 4 (crc32 [7]) ++ [7]))) =
      .continued ⟨⟨[(0, [7])], [0, 0], []⟩, 0, [], 1, [7]⟩ ∧
    dictLookup 0
        (⟨⟨[(0, [7])], [0, 0], []⟩, 0, [], 1,
          [7]⟩ : ListenState).server.segments = some [7] ∧
    (0 : Nat) <
      (⟨⟨[(0, [7])], [0, 0], []⟩, 0, [], 1, [7]⟩ : ListenState).next_segment := by
  decide

/-- **C8** (sender retransmission and draining).  In the draining loop:
(a) when the earliest-deadline in-flight entry (the head of the
deadline-sorted list) has expired, the sender re-reads the file at that
entry's byte offset — which equals its sequence number — retransmits a
Data datagram with the exact same sequence number and payload, and
re-enqueues the entry with the fresh deadline `now + LOSS_TIMEOUT`;
(b) the payload originally transmitted for an offset by the streaming
pass is exactly `fileRead file offset`, so the retransmission carries
the same payload as the original;
(c) a valid inbound Ack removes *every* in-flight entry with that
sequence number and leaves all other entries unchanged, so the sequence
number is never retransmitted again;
(d) the draining loop runs only while the in-flight set is non-empty:
once it empties the loop ends at once, and while it is non-empty the
loop keeps running (an exhausted event schedule leaves the set as is). -/
theorem claim_C8_retransmission (file : List Nat) :
    (∀ (now : Nat) (first : InflightSegment) (rest : List InflightSegment),
      (∀ e ∈ rest, first.resend_epoch ≤ e.resend_epoch) →
      first.resend_epoch < now → first.segment_number < 2 ^ 32 →
      (∀ b ∈ file, b < 256) →
      drainStep file now (first :: rest) none =
        .ok ⟨rest ++ [⟨first.segment_number, now + LOSS_TIMEOUT⟩],
          [(first.segment_number, fileRead file first.segment_number)]⟩) ∧
    (∀ p ∈ streamPass file, p.2 = fileRead file p.1) ∧
    (∀ (now : Nat) (inflight : List InflightSegment) (seg : List Nat)
      (ack : Nat),
      Utils.decode_ack seg = .ok ack → seg ≠ [] →
      (∀ e ∈ inflight, ¬ e.resend_epoch < now) →
      drainStep file now inflight (some seg) =
        .ok ⟨inflight.filter (fun e => e.segment_number ≠ ack), []⟩) ∧
    (∀ events, drainRun file events [] = .ok ([], [])) ∧
    (∀ inflight, drainRun file [] inflight = .ok (inflight, [])) := by
  refine ⟨?_, ?_, ?_, ?_, ?_⟩
  · intro now first rest _ hexp hseq hbytes
    have hpb : ∀ b ∈ fileRead file first.segment_number, b < 256 := by
      intro b hb
      exact hbytes b (List.drop_subset _ _ (List.take_subset _ _ hb))
    have hcrc := crc32_lt _ hpb
    unfold drainStep
    simp only []
    rw [if_pos hexp, encode_data_headers_eq _ _ hseq hcrc]
    rfl
  · have haux : ∀ (fuel off : Nat) (p : Nat × List Nat),
        p ∈ streamPassFuel fuel file off → p.2 = fileRead file p.1 := by
      intro fuel
      induction fuel with
      | zero => intro off p hp; simp [streamPassFuel] at hp
      | succ f ih =>
          intro off p hp
          rw [streamPassFuel] at hp
          by_cases hle : file.length ≤ off
          · rw [if_pos hle] at hp
            simp at hp
          · rw [if_neg hle] at hp
            rcases List.mem_cons.mp hp with h | h
            · rw [h]
            · exact ih _ p h
    intro p hp
    exact haux _ _ p hp
  · intro now inflight seg ack hack hne hnoexp
    cases inflight with
    | nil =>
        unfold drainStep
        rfl
    | cons first rest =>
        unfold drainStep
        simp only []
        rw [if_neg (hnoexp first (by simp))]
        unfold drainRecv
        simp only []
        rw [if_neg hne, hack]
  · intro events
    cases events <;> rfl
  · intro inflight
    cases inflight <;> rfl

/-- Witness for C8 on the 3-byte file `[1, 2, 3]`: an expired head entry
at offset 1 is re-read and retransmitted with a fresh deadline; the
streaming pass carried `fileRead` payloads; an Ack for 5 clears the
matching entry; the loop is inert once the in-flight set is empty. -/
theorem claim_C8_witness :
    drainStep [1, 2, 3] 5 [⟨1, 2⟩, ⟨2, 4⟩] none =
      .ok ⟨[⟨2, 4⟩, ⟨1, 8⟩], [(1, [2, 3])]⟩ ∧
    ((0, [1, 2, 3]) : Nat × List Nat).2 = fileRead [1, 2, 3] 0 ∧
    drainStep [1, 2, 3] 0 [⟨5, 9⟩] (some [3, 0, 0, 0, 5]) =
      .ok ⟨[], []⟩ ∧
    drainRun [1, 2, 3] [(0, none)] [] = .ok ([], []) ∧
    drainRun [1, 2, 3] [] [⟨1, 1⟩] = .ok ([⟨1, 1⟩], []) := by
  obtain ⟨ha, hb, hc, hd, he⟩ := claim_C8_retransmission [1, 2, 3]
  refine ⟨?_, ?_, ?_, hd [(0, none)], he [⟨1, 1⟩]⟩
  · exact ha 5 ⟨1, 2⟩ [⟨2, 4⟩] (by decide) (by decide) (by decide) (by decide)
  · exact hb (0, [1, 2, 3]) (by decide)
  · exact hc 0 [⟨5, 9⟩] [3, 0, 0, 0, 5] 5 (by decide) (by decide) (by decide)

end Udpsender
